import Mathlib

/-!
Shallow embedding of the LiquidityLens dashboard's moving-average analytics
(`liquidity_dashboard.py`).  Series are date-ordered lists of cells; a missing
value (pandas `NaN`) is `none`, a present float is `some q` with `q : ℚ`.
Windows are Python `int`s, embedded as `Int` so that the negative-window
behaviour of `pandas.Series.rolling` is representable.
-/

/-- Qualitative signal printed by the dashboard: the Python code prints either
an "above ..." or a "below ..." line, nothing else. -/
inductive Signal
  | above
  | below
deriving DecidableEq

/-- Classification of the latest value against one window's moving average.
`undefined` stands for the case the code skips (rolling mean is NaN, guarded by
`np.isnan`). -/
inductive PosClass
  | above
  | below
  | undefined
deriving DecidableEq

/-- Embeds the Python float comparison `a > b` where either side may be NaN
(modelled as `none`): any comparison involving NaN evaluates to `False`. -/
def floatGT (a b : Option ℚ) : Bool :=
  match a, b with
  | some x, some y => decide (y < x)
  | _, _ => false

/-- The trailing window of raw cells ending at position `i` (inclusive), at
most `w` cells: `S[i-w+1..i]`, truncated at the start of the series.  This is
the window `pandas.Series.rolling(window=w)` inspects at position `i`. -/
def windowVals (w : Nat) (s : List (Option ℚ)) (i : Nat) : List (Option ℚ) :=
  (s.take (i + 1)).drop (i + 1 - w)

/-- One entry of `series.rolling(window=w).mean()` (default `min_periods`,
hence `min_periods = w`): count the non-NaN observations in the trailing
window; if there are at least `w` of them (and at least one), the entry is
their arithmetic mean, otherwise NaN. -/
def rollingMeanAt (w : Nat) (s : List (Option ℚ)) (i : Nat) : Option ℚ :=
  if w ≤ ((windowVals w s i).filterMap id).length ∧
      0 < ((windowVals w s i).filterMap id).length then
    some (((windowVals w s i).filterMap id).sum /
      (((windowVals w s i).filterMap id).length : ℚ))
  else
    none

/-- Embeds `series.rolling(window=w).mean()` for a non-negative window `w`:
one output cell per input position. -/
def rollingMean (w : Nat) (s : List (Option ℚ)) : List (Option ℚ) :=
  (List.range s.length).map (rollingMeanAt w s)

/-- Embeds `series.rolling(window=window).mean()` for an arbitrary Python
`int` window: `pandas` validates the window in the `rolling` constructor and
raises `ValueError` for a negative window; `0` is accepted (and yields an
all-NaN column, because every window is empty). -/
def rollingMeanChecked (w : Int) (s : List (Option ℚ)) :
    Except String (List (Option ℚ)) :=
  if w < 0 then .error "window must be an integer 0 or greater"
  else .ok (rollingMean w.toNat s)

/-- The `ma_data` DataFrame built by
`LiquidityDashboard.calculate_moving_averages`: the selected base column
(after the optional billions rescaling chosen by the caller) plus one
`MA_{window}` column per requested window, keyed here by the window value. -/
structure MAData where
  base : List (Option ℚ)
  mas : List (Int × List (Option ℚ))
deriving DecidableEq

/-- Column access `ma_data[f'MA_{w}']` on the association list of MA columns. -/
def lookupMA (k : Int) : List (Int × List (Option ℚ)) → Option (List (Option ℚ))
  | [] => none
  | (k₀, v₀) :: rest => if k₀ = k then some v₀ else lookupMA k rest

/-- DataFrame column assignment `ma_data[f'MA_{w}'] = col`: overwrites the
existing column in place (DataFrame column names are unique), otherwise
appends the new column at the end. -/
def setMA : List (Int × List (Option ℚ)) → Int → List (Option ℚ) →
    List (Int × List (Option ℚ))
  | [], k, v => [(k, v)]
  | (k₀, v₀) :: rest, k, v =>
    if k₀ = k then (k, v) :: rest else (k₀, v₀) :: setMA rest k v

/-- The `for window in windows` loop of `calculate_moving_averages`: assigns
`MA_{window}` columns left to right; the first negative window makes `pandas`
raise, which aborts the loop and discards the partially built frame. -/
def addMAColumns (s : List (Option ℚ)) :
    List Int → List (Int × List (Option ℚ)) →
    Except String (List (Int × List (Option ℚ)))
  | [], cols => .ok cols
  | w :: rest, cols =>
    match rollingMeanChecked w s with
    | .error e => .error e
    | .ok col => addMAColumns s rest (setMA cols w col)

/-- Embeds `LiquidityDashboard.calculate_moving_averages` for a present data
frame, applied to the selected (already rescaled) column `s` and an explicit
window list: an empty series returns an empty DataFrame before any window is
touched; otherwise the base column is copied and one rolling-mean column per
window is added.  A `pandas` `ValueError` surfaces as `Except.error`. -/
def calculate_moving_averages (s : List (Option ℚ)) (windows : List Int) :
    Except String MAData :=
  if s.isEmpty then .ok ⟨[], []⟩
  else
    match addMAColumns s windows [] with
    | .error e => .error e
    | .ok mas => .ok ⟨s, mas⟩

/-- Convenience accessor: the `MA_{w}` column of a (non-raising) call, `none`
when the call raised or the column is absent. -/
def getMAColumn (r : Except String MAData) (w : Int) :
    Option (List (Option ℚ)) :=
  match r with
  | .error _ => none
  | .ok md => lookupMA w md.mas

/-- The mutable dashboard object: `self.data` (possibly not yet loaded) and
the `self.ma_windows` default window configuration. -/
structure LiquidityDashboard where
  data : Option (List (Option ℚ))
  ma_windows : List Int
deriving DecidableEq

/-- Embeds the method `LiquidityDashboard.calculate_moving_averages(column,
windows)` including its handling of the object state: `windows=None` falls
back to `self.ma_windows`, and absent or empty `self.data` returns an empty
frame. -/
def LiquidityDashboard.computeMAs (d : LiquidityDashboard)
    (windows : Option (List Int)) : Except String MAData :=
  let ws := windows.getD d.ma_windows
  match d.data with
  | none => .ok ⟨[], []⟩
  | some s => calculate_moving_averages s ws

/-- Embeds `column.iloc[-1]` on a column that may hold NaN: the last cell,
flattened (`none` both for an empty column and for a NaN last cell; the code
only evaluates it under a non-empty-data guard). -/
def lastOpt (col : List (Option ℚ)) : Option ℚ :=
  col.getLast?.join

/-- The crossover classification of `main`: `"above"` when
`ma_data[f'MA_{ma1}'].iloc[-1] > ma_data[f'MA_{ma2}'].iloc[-1]` under Python
float semantics (so `"below"` whenever either side is NaN), else `"below"`. -/
def crossoverSignal (ma1 ma2 : Option ℚ) : Signal :=
  if floatGT ma1 ma2 then .above else .below

/-- The nested index loops `for i in range(len(ws)-1): for j in
range(i+1, len(ws))`, emitting the pair `(ws[i], ws[j])` for every `i < j`
in the order the loops visit them. -/
def pairsAux : List Int → List (Int × Int)
  | [] => []
  | w :: rest => rest.map (fun w₂ => (w, w₂)) ++ pairsAux rest

/-- The sequence of window pairs the crossover section of `main` iterates
over, in emission order. -/
def crossoverPairs (ws : List Int) : List (Int × Int) :=
  pairsAux ws

/-- Embeds Python `max(ws)` on the (never empty in `main`) window list. -/
def maxI (ws : List Int) : Int :=
  ws.foldl max (ws.headD 0)

/-- Embeds the Moving Average Crossovers section of `main` for one column:
compute `ma_data`, and when `len(ma_data) >= max(ma_windows)` emit, for each
index pair, the two windows together with the above/below signal comparing
the last entries of their MA columns (a pair is skipped if either column is
absent).  A `pandas` error would propagate out of `main`; it is embedded as
an empty report, which no claim relies on (the menu windows are positive). -/
def crossoverReport (s : List (Option ℚ)) (ws : List Int) :
    List (Int × Int × Signal) :=
  match calculate_moving_averages s ws with
  | .error _ => []
  | .ok md =>
    if maxI ws ≤ (md.base.length : Int) then
      (crossoverPairs ws).filterMap (fun p =>
        match lookupMA p.1 md.mas, lookupMA p.2 md.mas with
        | some c₁, some c₂ =>
          some (p.1, p.2, crossoverSignal (lastOpt c₁) (lastOpt c₂))
        | _, _ => none)
    else []

/-- The per-window classification performed inside `add_ma_analysis`:
`ma_value = ma_data[f'MA_{window}'].iloc[-1]`; when it is NaN the window is
skipped (`undefined`), otherwise `current_value > ma_value` decides
above/below under Python float semantics. -/
def latestVsMA (s : List (Option ℚ)) (w : Nat) : PosClass :=
  match lastOpt (rollingMean w s) with
  | none => .undefined
  | some m => if floatGT (lastOpt s) (some m) then .above else .below

/-- Embeds the `ma_analysis` list built by `add_ma_analysis` for one column:
one `(window, signal)` entry per window whose current rolling mean is not
NaN, in window-list order; NaN windows contribute nothing. -/
def add_ma_analysis (s : List (Option ℚ)) (ws : List Int) :
    List (Int × Signal) :=
  ws.filterMap (fun w =>
    match lastOpt (rollingMean w.toNat s) with
    | none => none
    | some m =>
      some (w, if floatGT (lastOpt s) (some m) then Signal.above
               else Signal.below))

/-- A cell of the loaded DataFrame: a parsed float, a NaN produced by
`errors='coerce'`, or a raw string that `read_csv` left untouched. -/
inductive Cell
  | null
  | num (q : ℚ)
  | str (s : String)
deriving DecidableEq

/-- Embeds `str.replace(',', '')` on one cell. -/
def stripCommas (s : String) : String :=
  String.mk (s.data.filter (fun c => c != ','))

/-- Numeric value of one decimal digit character. -/
def digitVal (c : Char) : Option Nat :=
  if c.isDigit then some (c.toNat - 48) else none

/-- Left-to-right accumulation of a decimal numeral; fails at the first
non-digit character. -/
def parseDigitsAux : List Char → Nat → Option Nat
  | [], acc => some acc
  | c :: rest, acc =>
    match digitVal c with
    | some d => parseDigitsAux rest (acc * 10 + d)
    | none => none

/-- Embeds `pd.to_numeric(cell, errors='coerce')` on the decimal-numeral
fragment of its domain that the claims exercise: a non-empty all-digit string
parses to its value, anything else coerces to NaN. -/
def toNumericCoerce (s : String) : Option ℚ :=
  match s.data with
  | [] => none
  | _ => (parseDigitsAux s.data 0).map (fun n => (n : ℚ))

/-- Embeds per-cell what `pd.read_csv` does to a raw text cell: numeric text
becomes a float, anything else stays a string. -/
def readCell (raw : String) : Cell :=
  match toNumericCoerce raw with
  | some q => .num q
  | none => .str raw

/-- Embeds the column treatment of `LiquidityDashboard.load_data`: only the
`Excess_Reserves` column is rewritten by
`pd.to_numeric(col.astype(str).str.replace(',', ''), errors='coerce')`
(comma-stripping, then coercion with failures becoming NaN); every other
column keeps whatever `read_csv` produced. -/
def load_data_column (name : String) (raw : List String) : List Cell :=
  if name = "Excess_Reserves" then
    raw.map (fun c =>
      match toNumericCoerce (stripCommas c) with
      | some q => Cell.num q
      | none => Cell.null)
  else
    raw.map readCell

/-- Numeric view of a loaded cell, as the moving-average engine sees it. -/
def cellToOpt : Cell → Option ℚ
  | .num q => some q
  | _ => none

/-- The `self.data['Excess_Reserves']` series after `load_data`. -/
def excessSeries (raw : List String) : List (Option ℚ) :=
  (load_data_column "Excess_Reserves" raw).map cellToOpt

/-! ### Helper lemmas -/

theorem length_filterMap_id_le (l : List (Option ℚ)) :
    (l.filterMap id).length ≤ l.length := by
  induction l with
  | nil => simp
  | cons x t ih =>
    cases x with
    | none => simpa [List.filterMap_cons] using Nat.le_succ_of_le ih
    | some a => simpa [List.filterMap_cons] using ih

theorem length_filterMap_id_lt (l : List (Option ℚ)) (h : none ∈ l) :
    (l.filterMap id).length < l.length := by
  induction l with
  | nil => cases h
  | cons x t ih =>
    cases x with
    | none =>
      have := length_filterMap_id_le t
      simp [List.filterMap_cons]
      omega
    | some a =>
      have ht : none ∈ t := by
        rcases List.mem_cons.mp h with h' | h'
        · cases h'
        · exact h'
      simpa [List.filterMap_cons] using ih ht

theorem length_filterMap_id_eq (l : List (Option ℚ)) (h : ∀ x ∈ l, x ≠ none) :
    (l.filterMap id).length = l.length := by
  induction l with
  | nil => simp
  | cons x t ih =>
    cases x with
    | none => exact absurd rfl (h none (List.mem_cons_self _ _))
    | some a =>
      have ht := ih (fun x hx => h x (List.mem_cons_of_mem _ hx))
      simpa [List.filterMap_cons] using ht

theorem windowVals_length (w : Nat) (s : List (Option ℚ)) (i : Nat)
    (hi : i < s.length) : (windowVals w s i).length = min w (i + 1) := by
  unfold windowVals
  rw [List.length_drop, List.length_take]
  omega

theorem windowVals_subset (w : Nat) (s : List (Option ℚ)) (i : Nat) :
    windowVals w s i ⊆ s := by
  unfold windowVals
  exact fun x hx => List.take_subset _ _ (List.drop_subset _ _ hx)

theorem rollingMeanAt_none_of_mem_none (w : Nat) (s : List (Option ℚ))
    (i : Nat) (hi : i < s.length) (h : none ∈ windowVals w s i) :
    rollingMeanAt w s i = none := by
  have h1 := windowVals_length w s i hi
  have h2 := length_filterMap_id_lt _ h
  unfold rollingMeanAt
  rw [if_neg]
  rintro ⟨hc, -⟩
  omega

theorem rollingMeanAt_some (w : Nat) (s : List (Option ℚ)) (i : Nat)
    (hw : 0 < w) (hi : i < s.length) (hnn : ∀ x ∈ s, x ≠ none)
    (hfull : w ≤ i + 1) :
    rollingMeanAt w s i =
      some (((windowVals w s i).filterMap id).sum / (w : ℚ)) := by
  have hsub : ∀ x ∈ windowVals w s i, x ≠ none :=
    fun x hx => hnn x (windowVals_subset w s i hx)
  have hlen : ((windowVals w s i).filterMap id).length = w := by
    rw [length_filterMap_id_eq _ hsub, windowVals_length w s i hi]
    omega
  unfold rollingMeanAt
  rw [if_pos ⟨by omega, by omega⟩, hlen]

theorem rollingMeanAt_isSome_iff (w : Nat) (s : List (Option ℚ)) (i : Nat)
    (hw : 0 < w) (hi : i < s.length) (hnn : ∀ x ∈ s, x ≠ none) :
    (rollingMeanAt w s i).isSome ↔ w - 1 ≤ i := by
  constructor
  · intro h
    by_contra hlt
    have hnone : rollingMeanAt w s i = none := by
      have h1 := windowVals_length w s i hi
      have h2 := length_filterMap_id_le (windowVals w s i)
      unfold rollingMeanAt
      rw [if_neg]
      rintro ⟨hc, -⟩
      omega
    rw [hnone] at h
    simp at h
  · intro h
    rw [rollingMeanAt_some w s i hw hi hnn (by omega)]
    simp

theorem rollingMean_get (w : Nat) (s : List (Option ℚ)) (i : Nat)
    (hi : i < s.length) :
    (rollingMean w s).get? i = some (rollingMeanAt w s i) := by
  unfold rollingMean
  rw [List.get?_map, List.get?_range hi]
  rfl

theorem lookupMA_cons (k k₀ : Int) (v₀ : List (Option ℚ))
    (rest : List (Int × List (Option ℚ))) :
    lookupMA k ((k₀, v₀) :: rest) =
      if k₀ = k then some v₀ else lookupMA k rest := rfl

theorem lookupMA_setMA_self (l : List (Int × List (Option ℚ))) (k : Int)
    (v : List (Option ℚ)) : lookupMA k (setMA l k v) = some v := by
  induction l with
  | nil => simp [setMA, lookupMA]
  | cons p rest ih =>
    obtain ⟨k₀, v₀⟩ := p
    by_cases hk : k₀ = k
    · simp only [setMA]
      rw [if_pos hk, lookupMA_cons, if_pos rfl]
    · simp only [setMA]
      rw [if_neg hk, lookupMA_cons, if_neg hk]
      exact ih

theorem lookupMA_setMA_ne (l : List (Int × List (Option ℚ))) (k : Int)
    (v : List (Option ℚ)) (q : Int) (hq : q ≠ k) :
    lookupMA q (setMA l k v) = lookupMA q l := by
  have h1 : ¬ k = q := fun e => hq e.symm
  induction l with
  | nil =>
    simp only [setMA, lookupMA]
    rw [if_neg h1]
  | cons p rest ih =>
    obtain ⟨k₀, v₀⟩ := p
    by_cases hk : k₀ = k
    · simp only [setMA]
      rw [if_pos hk, lookupMA_cons, lookupMA_cons]
      have h2 : ¬ k₀ = q := by rw [hk]; exact h1
      rw [if_neg h1, if_neg h2]
    · simp only [setMA]
      rw [if_neg hk, lookupMA_cons, lookupMA_cons]
      by_cases hkq : k₀ = q
      · rw [if_pos hkq, if_pos hkq]
      · rw [if_neg hkq, if_neg hkq]
        exact ih

theorem addMAColumns_ok (s : List (Option ℚ)) (W : List Int) :
    ∀ cols : List (Int × List (Option ℚ)), (∀ v ∈ W, 0 ≤ v) →
      ∃ res, addMAColumns s W cols = .ok res ∧
        (∀ w ∈ W, lookupMA w res = some (rollingMean w.toNat s)) ∧
        (∀ w, w ∉ W → lookupMA w res = lookupMA w cols) := by
  induction W with
  | nil =>
    intro cols _
    exact ⟨cols, rfl, by simp, fun w _ => rfl⟩
  | cons w rest ih =>
    intro cols h
    have hw : 0 ≤ w := h w (List.mem_cons_self _ _)
    have hstep : rollingMeanChecked w s = .ok (rollingMean w.toNat s) := by
      unfold rollingMeanChecked
      rw [if_neg (by omega)]
    obtain ⟨res, hres, h1, h2⟩ :=
      ih (setMA cols w (rollingMean w.toNat s))
        (fun v hv => h v (List.mem_cons_of_mem _ hv))
    refine ⟨res, ?_, ?_, ?_⟩
    · show addMAColumns s (w :: rest) cols = .ok res
      unfold addMAColumns
      rw [hstep]
      exact hres
    · intro v hv
      rcases List.mem_cons.mp hv with rfl | hv'
      · by_cases hmem : v ∈ rest
        · exact h1 v hmem
        · rw [h2 v hmem, lookupMA_setMA_self]
      · exact h1 v hv'
    · intro v hv
      have hvw : v ≠ w := fun e => hv (e ▸ List.mem_cons_self _ _)
      have hvr : v ∉ rest := fun m => hv (List.mem_cons_of_mem _ m)
      rw [h2 v hvr, lookupMA_setMA_ne _ _ _ _ hvw]

theorem addMAColumns_err (s : List (Option ℚ)) (W : List Int) :
    ∀ cols : List (Int × List (Option ℚ)), (∃ v ∈ W, v < 0) →
      ∃ e, addMAColumns s W cols = .error e := by
  induction W with
  | nil =>
    rintro cols ⟨v, hv, -⟩
    cases hv
  | cons w rest ih =>
    rintro cols ⟨v, hv, hneg⟩
    by_cases hw : w < 0
    · refine ⟨"window must be an integer 0 or greater", ?_⟩
      unfold addMAColumns
      rw [show rollingMeanChecked w s =
          .error "window must be an integer 0 or greater" from by
        unfold rollingMeanChecked
        rw [if_pos hw]]
    · have hstep : rollingMeanChecked w s = .ok (rollingMean w.toNat s) := by
        unfold rollingMeanChecked
        rw [if_neg hw]
      rcases List.mem_cons.mp hv with rfl | hv'
      · omega
      · obtain ⟨e, he⟩ :=
          ih (setMA cols w (rollingMean w.toNat s)) ⟨v, hv', hneg⟩
        refine ⟨e, ?_⟩
        unfold addMAColumns
        rw [hstep]
        exact he

theorem isEmpty_false_of_ne (s : List (Option ℚ)) (hs : s ≠ []) :
    s.isEmpty = false := by
  cases s with
  | nil => exact absurd rfl hs
  | cons a t => rfl

theorem calc_ok (s : List (Option ℚ)) (W : List Int) (hs : s ≠ [])
    (hW : ∀ v ∈ W, 0 ≤ v) :
    ∃ mas, calculate_moving_averages s W = .ok ⟨s, mas⟩ ∧
      ∀ w ∈ W, lookupMA w mas = some (rollingMean w.toNat s) := by
  obtain ⟨res, hres, h1, -⟩ := addMAColumns_ok s W [] hW
  refine ⟨res, ?_, h1⟩
  unfold calculate_moving_averages
  rw [isEmpty_false_of_ne s hs, hres]
  simp

theorem calc_lookup (s : List (Option ℚ)) (W : List Int) (w : Int)
    (hs : s ≠ []) (hW : ∀ v ∈ W, 0 ≤ v) (hm : w ∈ W) :
    getMAColumn (calculate_moving_averages s W) w =
      some (rollingMean w.toNat s) := by
  obtain ⟨mas, hcalc, hl⟩ := calc_ok s W hs hW
  rw [hcalc]
  exact hl w hm

theorem pairsAux_sub (ws : List Int) (p : Int × Int) (hp : p ∈ pairsAux ws) :
    p.1 ∈ ws ∧ p.2 ∈ ws := by
  induction ws with
  | nil => cases hp
  | cons w rest ih =>
    simp only [pairsAux, List.mem_append] at hp
    rcases hp with h | h
    · obtain ⟨w₂, hw₂, rfl⟩ := List.mem_map.mp h
      exact ⟨List.mem_cons_self _ _, List.mem_cons_of_mem _ hw₂⟩
    · obtain ⟨h1, h2⟩ := ih h
      exact ⟨List.mem_cons_of_mem _ h1, List.mem_cons_of_mem _ h2⟩

theorem pairsAux_lt (ws : List Int) (hsort : ws.Pairwise (· < ·))
    (p : Int × Int) (hp : p ∈ pairsAux ws) : p.1 < p.2 := by
  induction ws with
  | nil => cases hp
  | cons w rest ih =>
    rw [List.pairwise_cons] at hsort
    obtain ⟨hw, hrest⟩ := hsort
    simp only [pairsAux, List.mem_append] at hp
    rcases hp with h | h
    · obtain ⟨w₂, hw₂, rfl⟩ := List.mem_map.mp h
      exact hw w₂ hw₂
    · exact ih hrest h

theorem pairsAux_mem (ws : List Int) (hsort : ws.Pairwise (· < ·))
    (a b : Int) (ha : a ∈ ws) (hb : b ∈ ws) (hab : a < b) :
    (a, b) ∈ pairsAux ws := by
  induction ws with
  | nil => cases ha
  | cons w rest ih =>
    rw [List.pairwise_cons] at hsort
    obtain ⟨hw, hrest⟩ := hsort
    simp only [pairsAux, List.mem_append]
    rcases List.mem_cons.mp ha with rfl | ha'
    · rcases List.mem_cons.mp hb with rfl | hb'
      · omega
      · exact Or.inl (List.mem_map.mpr ⟨b, hb', rfl⟩)
    · rcases List.mem_cons.mp hb with rfl | hb'
      · have := hw a ha'
        omega
      · exact Or.inr (ih hrest ha' hb')

theorem pairsAux_pairwise (ws : List Int) (hsort : ws.Pairwise (· < ·)) :
    (pairsAux ws).Pairwise
      (fun p q => p.1 < q.1 ∨ (p.1 = q.1 ∧ p.2 < q.2)) := by
  induction ws with
  | nil => exact List.Pairwise.nil
  | cons w rest ih =>
    rw [List.pairwise_cons] at hsort
    obtain ⟨hw, hrest⟩ := hsort
    simp only [pairsAux]
    rw [List.pairwise_append]
    refine ⟨?_, ih hrest, ?_⟩
    · rw [List.pairwise_map]
      exact hrest.imp (fun h => Or.inr ⟨rfl, h⟩)
    · intro x hx y hy
      obtain ⟨w₂, hw₂, rfl⟩ := List.mem_map.mp hx
      exact Or.inl (hw _ (pairsAux_sub rest y hy).1)

theorem filterMap_eq_map_of {α β : Type} (F : α → Option β) (g : α → β) :
    ∀ l : List α, (∀ p ∈ l, F p = some (g p)) → l.filterMap F = l.map g := by
  intro l
  induction l with
  | nil => intro _; rfl
  | cons x t ih =>
    intro h
    rw [List.filterMap_cons, h x (List.mem_cons_self _ _), List.map_cons,
      ih (fun p hp => h p (List.mem_cons_of_mem _ hp))]

theorem filterMap_none_eq_nil {α β : Type} (F : α → Option β)
    (l : List α) (h : ∀ p ∈ l, F p = none) : l.filterMap F = [] := by
  induction l with
  | nil => rfl
  | cons x t ih =>
    rw [List.filterMap_cons, h x (List.mem_cons_self _ _)]
    exact ih (fun p hp => h p (List.mem_cons_of_mem _ hp))

theorem crossoverReport_ok (s : List (Option ℚ)) (ws : List Int)
    (base : List (Option ℚ)) (mas : List (Int × List (Option ℚ)))
    (h : calculate_moving_averages s ws = .ok ⟨base, mas⟩) :
    crossoverReport s ws =
      if maxI ws ≤ (base.length : Int) then
        (crossoverPairs ws).filterMap (fun p =>
          match lookupMA p.1 mas, lookupMA p.2 mas with
          | some c₁, some c₂ =>
            some (p.1, p.2, crossoverSignal (lastOpt c₁) (lastOpt c₂))
          | _, _ => none)
      else [] := by
  unfold crossoverReport
  rw [h]

theorem crossoverReport_eq (s : List (Option ℚ)) (ws : List Int)
    (hs : s ≠ []) (hW : ∀ v ∈ ws, 0 ≤ v)
    (hlen : maxI ws ≤ (s.length : Int)) :
    crossoverReport s ws = (crossoverPairs ws).map (fun p =>
      (p.1, p.2, crossoverSignal (lastOpt (rollingMean p.1.toNat s))
        (lastOpt (rollingMean p.2.toNat s)))) := by
  obtain ⟨mas, hcalc, hl⟩ := calc_ok s ws hs hW
  rw [crossoverReport_ok s ws s mas hcalc, if_pos hlen]
  apply filterMap_eq_map_of
  intro p hp
  obtain ⟨h1, h2⟩ := pairsAux_sub ws p hp
  rw [hl p.1 h1, hl p.2 h2]

theorem get?_mem_windowVals (s : List (Option ℚ)) (w i j : Nat)
    (x : Option ℚ) (hx : s.get? i = some x) (hij : i ≤ j) (hjw : j < i + w) :
    x ∈ windowVals w s j := by
  unfold windowVals
  refine List.get?_mem (n := i - (j + 1 - w)) ?_
  rw [List.get?_drop]
  have harith : j + 1 - w + (i - (j + 1 - w)) = i := by omega
  rw [harith, List.get?_take (by omega)]
  exact hx

/-! ### Claims -/

/-- C1: for a series with no nulls and a window set of positive windows, the
rolling-mean column produced by `calculate_moving_averages` for window `w`
has a defined value at position `i` exactly when `i ≥ w - 1`, and that value
is the arithmetic mean of the `w` trailing observations `S[i-w+1..i]`. -/
theorem claim_C1 (s : List (Option ℚ)) (W : List Int) (w : Int) (i : Nat)
    (hmem : w ∈ W) (hpos : ∀ v ∈ W, 0 < v) (hnn : ∀ x ∈ s, x ≠ none)
    (hi : i < s.length) :
    getMAColumn (calculate_moving_averages s W) w =
      some (rollingMean w.toNat s) ∧
    (rollingMean w.toNat s).get? i = some (rollingMeanAt w.toNat s i) ∧
    ((rollingMeanAt w.toNat s i).isSome ↔ w.toNat - 1 ≤ i) ∧
    (w.toNat - 1 ≤ i → rollingMeanAt w.toNat s i =
      some (((windowVals w.toNat s i).filterMap id).sum / (w.toNat : ℚ))) := by
  have hs : s ≠ [] := by
    intro e
    rw [e] at hi
    simp at hi
  have hw : 0 < w.toNat := by
    have := hpos w hmem
    omega
  exact ⟨calc_lookup s W w hs (fun v hv => le_of_lt (hpos v hv)) hmem,
    rollingMean_get _ s i hi, rollingMeanAt_isSome_iff _ s i hw hi hnn,
    fun h => rollingMeanAt_some _ s i hw hi hnn (by omega)⟩

/-- C1 witness: `S = [1,2,3]`, `W = {2}`, position `1` carries the mean of
the last two observations. -/
theorem claim_C1_witness :
    rollingMeanAt 2 [some 1, some 2, some 3] 1 =
      some (((windowVals 2 [some 1, some 2, some 3] 1).filterMap id).sum /
        (2 : ℚ)) :=
  (claim_C1 [some 1, some 2, some 3] [2] 2 1 (by decide) (by decide)
    (by decide) (by decide)).2.2.2 (by decide)

/-- C2: whenever one of the trailing `w` observations before position `i` is
null, the rolling mean that `calculate_moving_averages` produces at `i` for
window `w` is null — no partial-window approximation. -/
theorem claim_C2 (s : List (Option ℚ)) (W : List Int) (w : Int) (i : Nat)
    (hmem : w ∈ W) (hW : ∀ v ∈ W, 0 ≤ v) (hi : i < s.length)
    (hnull : none ∈ windowVals w.toNat s i) :
    getMAColumn (calculate_moving_averages s W) w =
      some (rollingMean w.toNat s) ∧
    (rollingMean w.toNat s).get? i = some (rollingMeanAt w.toNat s i) ∧
    rollingMeanAt w.toNat s i = none := by
  have hs : s ≠ [] := by
    intro e
    rw [e] at hi
    simp at hi
  exact ⟨calc_lookup s W w hs hW hmem, rollingMean_get _ s i hi,
    rollingMeanAt_none_of_mem_none _ s i hi hnull⟩

/-- C2 witness: `S = [1, null, 3]`, `W = {2}`: the rolling mean at the last
position is null because the window spans the null. -/
theorem claim_C2_witness :
    rollingMeanAt 2 [some 1, none, some 3] 2 = none :=
  (claim_C2 [some 1, none, some 3] [2] 2 2 (by decide) (by decide)
    (by decide) (by decide)).2.2

/-- C3 counterexample: the window list `[0, 0]` contains a window `≤ 0` and a
duplicate, yet `calculate_moving_averages` performs the computation and
returns a result instead of an input-validation failure (`pandas` accepts a
zero window, producing an all-null column, and a duplicate assignment merely
overwrites the identical column). -/
theorem claim_C3_cex :
    calculate_moving_averages [some 1] [0, 0] =
      .ok ⟨[some 1], [(0, [none])]⟩ := by
  with_unfolding_all rfl

/-- C3 amended: only negative windows are rejected — on a non-empty series a
window list containing a negative window makes the computation fail with the
`pandas` validation error and no result is returned; zero and duplicate
windows are accepted without any validation (and an empty series returns the
empty frame before any validation at all). -/
theorem claim_C3_amended (s : List (Option ℚ)) (W : List Int) (hs : s ≠ [])
    (hneg : ∃ v ∈ W, v < 0) :
    ∃ e, calculate_moving_averages s W = .error e := by
  obtain ⟨e, he⟩ := addMAColumns_err s W [] hneg
  refine ⟨e, ?_⟩
  unfold calculate_moving_averages
  rw [isEmpty_false_of_ne s hs, he]
  rfl

/-- C3 amended witness: a concrete negative window raises. -/
theorem claim_C3_amended_witness :
    ∃ e, calculate_moving_averages [some 1] [-1] = .error e :=
  claim_C3_amended [some 1] [-1] (by decide) ⟨-1, by decide, by decide⟩

/-- C4 counterexample: with the configured window list `[10, 5]` (the
multiselect reports selections in selection order) the crossover report
enumerates the pair as `(10, 5)` — the longer window first — so pairs are
not ordered ascending by (shorter, longer) window length. -/
theorem claim_C4_cex :
    crossoverReport (List.replicate 10 (some 1)) [10, 5] =
      [(10, 5, Signal.below)] ∧ (5 : Int) < 10 :=
  ⟨by with_unfolding_all rfl, by decide⟩

/-- C4 amended: the crossover report enumerates pairs by index order of the
configured window list; when that list is strictly ascending this is exactly
the claimed order — every unordered pair appears, the shorter window comes
first in each pair, the pair sequence is strictly ascending
lexicographically, and (determinism being definitional for the pure
function) the report projects onto exactly this pair sequence whenever the
series is long enough. -/
theorem claim_C4_amended (ws : List Int) (hsort : ws.Pairwise (· < ·)) :
    (∀ p ∈ crossoverPairs ws, p.1 < p.2) ∧
    (∀ a b : Int, a ∈ ws → b ∈ ws → a < b → (a, b) ∈ crossoverPairs ws) ∧
    (crossoverPairs ws).Pairwise
      (fun p q => p.1 < q.1 ∨ (p.1 = q.1 ∧ p.2 < q.2)) ∧
    (∀ s : List (Option ℚ), s ≠ [] → (∀ v ∈ ws, 0 ≤ v) →
      maxI ws ≤ (s.length : Int) →
      (crossoverReport s ws).map (fun e => (e.1, e.2.1)) = crossoverPairs ws) := by
  refine ⟨fun p hp => pairsAux_lt ws hsort p hp,
    fun a b ha hb hab => pairsAux_mem ws hsort a b ha hb hab,
    pairsAux_pairwise ws hsort, ?_⟩
  intro s hs hW hlen
  rw [crossoverReport_eq s ws hs hW hlen, List.map_map]
  exact List.map_id _

/-- C4 amended witness: for the ascending configuration `[5, 10, 20]` the
pair `(5, 20)` is enumerated. -/
theorem claim_C4_amended_witness :
    ((5 : Int), (20 : Int)) ∈ crossoverPairs [5, 10, 20] :=
  (claim_C4_amended [5, 10, 20] (by decide)).2.1 5 20 (by decide) (by decide)
    (by decide)

/-- C5 counterexample: a null in the last five observations makes both
current rolling means null, yet the crossover report classifies the pair as
`below` (Python `NaN > NaN` is `False`) instead of leaving it undefined. -/
theorem claim_C5_cex :
    crossoverReport
      [some 1, some 1, some 1, some 1, some 1, some 1, some 1, some 1,
        none, some 1] [5, 10] = [(5, 10, Signal.below)] ∧
    lastOpt (rollingMean 5
      [some 1, some 1, some 1, some 1, some 1, some 1, some 1, some 1,
        none, some 1]) = none :=
  ⟨by with_unfolding_all rfl, by with_unfolding_all rfl⟩

/-- C5 amended: the crossover classification is `above` exactly when both
current rolling means are defined and the first listed window's mean
strictly exceeds the second's; in every other case — including whenever
either side is null — it is `below`, and no exception is raised (every
report entry is a total comparison of the two last MA entries). -/
theorem claim_C5_amended (a b : Option ℚ) :
    (crossoverSignal a b = Signal.above ↔
      ∃ x y, a = some x ∧ b = some y ∧ y < x) ∧
    ((a = none ∨ b = none) → crossoverSignal a b = Signal.below) ∧
    (∀ (s : List (Option ℚ)) (ws : List Int) (w₁ w₂ : Int) (sig : Signal),
      (∀ v ∈ ws, 0 ≤ v) → (w₁, w₂, sig) ∈ crossoverReport s ws →
      sig = crossoverSignal (lastOpt (rollingMean w₁.toNat s))
        (lastOpt (rollingMean w₂.toNat s))) := by
  refine ⟨?_, ?_, ?_⟩
  · constructor
    · intro h
      unfold crossoverSignal at h
      by_cases hgt : floatGT a b = true
      · cases a with
        | none => simp [floatGT] at hgt
        | some x =>
          cases b with
          | none => simp [floatGT] at hgt
          | some y => exact ⟨x, y, rfl, rfl, by simpa [floatGT] using hgt⟩
      · rw [if_neg hgt] at h
        cases h
    · rintro ⟨x, y, rfl, rfl, hlt⟩
      unfold crossoverSignal
      rw [if_pos (by simpa [floatGT] using hlt)]
  · rintro (rfl | rfl)
    · cases b <;> rfl
    · cases a <;> rfl
  · intro s ws w₁ w₂ sig hW hmem
    by_cases hs : s = []
    · subst hs
      have hrep : crossoverReport [] ws = [] := by
        rw [crossoverReport_ok [] ws [] [] rfl]
        by_cases hc : maxI ws ≤ (([] : List (Option ℚ)).length : Int)
        · rw [if_pos hc]
          exact filterMap_none_eq_nil _ _ (fun p _ => rfl)
        · rw [if_neg hc]
      rw [hrep] at hmem
      cases hmem
    · obtain ⟨mas, hcalc, hl⟩ := calc_ok s ws hs hW
      rw [crossoverReport_ok s ws s mas hcalc] at hmem
      by_cases hlen : maxI ws ≤ (s.length : Int)
      · rw [if_pos hlen] at hmem
        obtain ⟨p, hp, hFp⟩ := List.mem_filterMap.mp hmem
        obtain ⟨h1, h2⟩ := pairsAux_sub ws p hp
        rw [hl p.1 h1, hl p.2 h2] at hFp
        simp only [Option.some.injEq, Prod.mk.injEq] at hFp
        obtain ⟨e1, e2, e3⟩ := hFp
        rw [← e1, ← e2]
        exact e3.symm
      · rw [if_neg hlen] at hmem
        cases hmem

/-- C5 amended witness: a null left side classifies as `below`. -/
theorem claim_C5_amended_witness :
    crossoverSignal none (some 1) = Signal.below :=
  (claim_C5_amended none (some 1)).2.1 (Or.inl rfl)

/-- C6: the latest-value-vs-MA analysis classifies each configured window as
exactly one of above/below/undefined, and the classification is undefined —
equivalently, the window contributes no entry to the analysis text — exactly
when the window's current rolling mean is null. -/
theorem claim_C6 (s : List (Option ℚ)) (ws : List Int) (w : Int)
    (hmem : w ∈ ws) (hW : ∀ v ∈ ws, 0 ≤ v) (hs : s ≠ []) :
    getMAColumn (calculate_moving_averages s ws) w =
      some (rollingMean w.toNat s) ∧
    (latestVsMA s w.toNat = PosClass.above ∨
      latestVsMA s w.toNat = PosClass.below ∨
      latestVsMA s w.toNat = PosClass.undefined) ∧
    (latestVsMA s w.toNat = PosClass.undefined ↔
      lastOpt (rollingMean w.toNat s) = none) ∧
    (latestVsMA s w.toNat = PosClass.undefined ↔
      ∀ sig : Signal, (w, sig) ∉ add_ma_analysis s ws) := by
  refine ⟨calc_lookup s ws w hs hW hmem, ?_, ?_, ?_⟩
  · unfold latestVsMA
    cases lastOpt (rollingMean w.toNat s) with
    | none => exact Or.inr (Or.inr rfl)
    | some m =>
      by_cases hb : floatGT (lastOpt s) (some m) = true
      · exact Or.inl (by simp [hb])
      · exact Or.inr (Or.inl (by simp [hb]))
  · unfold latestVsMA
    cases hc : lastOpt (rollingMean w.toNat s) with
    | none => simp
    | some m =>
      constructor
      · intro h
        by_cases hb : floatGT (lastOpt s) (some m) = true
        · simp [hb] at h
        · simp [hb] at h
      · intro h
        cases h
  · constructor
    · intro h sig hsig
      have hnone : lastOpt (rollingMean w.toNat s) = none := by
        unfold latestVsMA at h
        cases hc : lastOpt (rollingMean w.toNat s) with
        | none => rfl
        | some m =>
          rw [hc] at h
          by_cases hb : floatGT (lastOpt s) (some m) = true
          · simp [hb] at h
          · simp [hb] at h
      obtain ⟨v, hv, hFv⟩ := List.mem_filterMap.mp hsig
      cases hc : lastOpt (rollingMean v.toNat s) with
      | none =>
        rw [hc] at hFv
        cases hFv
      | some m =>
        rw [hc] at hFv
        simp only [Option.some.injEq, Prod.mk.injEq] at hFv
        obtain ⟨rfl, -⟩ := hFv
        rw [hnone] at hc
        cases hc
    · intro h
      by_contra hne
      cases hc : lastOpt (rollingMean w.toNat s) with
      | some m =>
        have hmem2 : (w, if floatGT (lastOpt s) (some m) then Signal.above
            else Signal.below) ∈ add_ma_analysis s ws :=
          List.mem_filterMap.mpr ⟨w, hmem, by rw [hc]⟩
        exact h _ hmem2
      | none =>
        apply hne
        unfold latestVsMA
        rw [hc]

/-- C6 witness: one observation with a 5-day window is classified undefined. -/
theorem claim_C6_witness :
    latestVsMA [some 1] 5 = PosClass.undefined :=
  ((claim_C6 [some 1] [5] 5 (by decide) (by decide) (by decide)).2.2.1).mpr
    rfl

/-- C7: an empty input series yields an empty result frame for every window
list, with no error — the empty-data guard returns before any window is
touched. -/
theorem claim_C7 (ws : List Int) :
    calculate_moving_averages [] ws = .ok ⟨[], []⟩ := rfl

/-- C9: the computation is a pure function of the data column and the window
list — two dashboard objects holding equal data produce identical output for
the same explicit windows, whatever the rest of their mutable state
(`ma_windows`) holds, and repeating the call cannot change the result. -/
theorem claim_C9 (d₁ d₂ : LiquidityDashboard) (ws : List Int)
    (h : d₁.data = d₂.data) :
    d₁.computeMAs (some ws) = d₂.computeMAs (some ws) := by
  simp only [LiquidityDashboard.computeMAs, Option.getD_some, h]

/-- C9 witness: same data, different default-window state, equal output. -/
theorem claim_C9_witness :
    LiquidityDashboard.computeMAs ⟨some [some 1], [5]⟩ (some [2]) =
      LiquidityDashboard.computeMAs ⟨some [some 1], [7]⟩ (some [2]) :=
  claim_C9 ⟨some [some 1], [5]⟩ ⟨some [some 1], [7]⟩ [2] rfl

/-- C10: both comparison sites use a strict `>`, so an exact tie of two
non-null sides classifies as below, never above — for the latest value
against a window's rolling mean and for a window pair's crossover alike. -/
theorem claim_C10 (s : List (Option ℚ)) (w : Nat) (m q : ℚ)
    (h1 : lastOpt (rollingMean w s) = some m) (h2 : lastOpt s = some m) :
    latestVsMA s w = PosClass.below ∧
    crossoverSignal (some q) (some q) = Signal.below := by
  constructor
  · unfold latestVsMA
    rw [h1, h2]
    simp [floatGT]
  · unfold crossoverSignal
    simp [floatGT]

/-- C10 witness: a constant series ties with its own moving average. -/
theorem claim_C10_witness :
    latestVsMA [some 2, some 2] 2 = PosClass.below ∧
    crossoverSignal (some 5) (some 5) = Signal.below :=
  claim_C10 [some 2, some 2] 2 2 5 (by with_unfolding_all rfl) rfl

/-- C8 counterexample: a thousands-separated cell in the `Fed_Funds_Rate`
column is neither stripped nor coerced (it stays a raw string), while the
same cell in `Excess_Reserves` is stripped and parsed — so the claimed
treatment does not apply to every numeric column. -/
theorem claim_C8_cex :
    load_data_column "Fed_Funds_Rate" ["1,234"] = [Cell.str "1,234"] ∧
    load_data_column "Excess_Reserves" ["1,234"] = [Cell.num 1234] :=
  ⟨by with_unfolding_all rfl, by with_unfolding_all rfl⟩

/-- C8 amended: for the `Excess_Reserves` column only, each cell has commas
stripped before numeric parsing; a cell that still fails coercion becomes
null and poisons every rolling-mean window that covers its position, and a
cell that parses contributes its stripped numeric value. -/
theorem claim_C8_amended (raw : List String) (i : Nat) (cell : String)
    (hc : raw.get? i = some cell) :
    (toNumericCoerce (stripCommas cell) = none →
      (excessSeries raw).get? i = some none ∧
      ∀ w j : Nat, j < raw.length → i ≤ j → j < i + w →
        rollingMeanAt w (excessSeries raw) j = none) ∧
    (∀ q : ℚ, toNumericCoerce (stripCommas cell) = some q →
      (excessSeries raw).get? i = some (some q)) := by
  have hlen : (excessSeries raw).length = raw.length := by
    unfold excessSeries load_data_column
    rw [if_pos rfl]
    simp
  have hser : (excessSeries raw).get? i =
      some (cellToOpt (match toNumericCoerce (stripCommas cell) with
        | some q => Cell.num q
        | none => Cell.null)) := by
    unfold excessSeries load_data_column
    rw [if_pos rfl, List.get?_map, List.get?_map, hc]
    rfl
  refine ⟨?_, ?_⟩
  · intro hnone
    have hx : (excessSeries raw).get? i = some none := by
      rw [hser, hnone]
      rfl
    refine ⟨hx, ?_⟩
    intro w j hj hij hjw
    apply rollingMeanAt_none_of_mem_none
    · rw [hlen]
      exact hj
    · exact get?_mem_windowVals (excessSeries raw) w i j none hx hij hjw
  · intro q hq
    rw [hser, hq]
    rfl

/-- C8 amended witness: the unparseable `Excess_Reserves` cell `"abc"`
loads as null. -/
theorem claim_C8_amended_witness :
    (excessSeries ["abc", "5"]).get? 0 = some none :=
  ((claim_C8_amended ["abc", "5"] 0 "abc" rfl).1
    (by with_unfolding_all rfl)).1
